/-
Verification of the sortr note-sorting core (vector store, classification
pipeline, move/undo logic) against its natural-language specification.

The TypeScript sources are shallowly embedded:
* JS numbers that can be `NaN` (parsed confidences) are modelled by `JsNum`
  (a rational or NaN); exact similarity values live in `ℝ` because
  `Math.sqrt` appears in `cosineSimilarity`.
* String manipulation (`trim`, `split`, `basename`, `extname`, template
  literals) is modelled on `List Char`, the underlying data of `String`,
  with structurally recursive functions so concrete runs reduce in the
  kernel.
* Filesystem state is a record of existing file paths and directories;
  effectful methods become functions from state to state.
-/
import Mathlib

namespace Sortr

/-! ### Character/string helpers (models of JS string builtins) -/

/-- Model of JS `String.prototype.trim` on character data: strip leading and
trailing whitespace. -/
def trimChars (cs : List Char) : List Char :=
  ((cs.dropWhile Char.isWhitespace).reverse.dropWhile Char.isWhitespace).reverse

/-- Model of `s.trim()` for a Lean `String`. -/
def trimS (s : String) : String :=
  String.mk (trimChars s.data)

/-- Model of JS `split("\n")` on character data (structural recursion). -/
def splitNL (cs : List Char) : List (List Char) :=
  cs.foldr (fun c acc =>
    match acc with
    | [] => if c = '\n' then [[], []] else [[c]]
    | line :: rest => if c = '\n' then [] :: line :: rest else (c :: line) :: rest) [[]]

/-- `startsWithL pre cs` models JS `cs.startsWith(pre)`. -/
def startsWithL : List Char → List Char → Bool
  | [], _ => true
  | _ :: _, [] => false
  | p :: ps, c :: cs => p = c && startsWithL ps cs

/-- Model of JS `replace(sub, "")` when `sub` is a single character and only
its first occurrence is removed (`"65%".replace("%","")`). -/
def removeFirstChar (x : Char) : List Char → List Char
  | [] => []
  | c :: cs => if c = x then cs else c :: removeFirstChar x cs

/-- Decimal digit value of a character, `none` for non-digits. -/
def digitVal? (c : Char) : Option ℕ :=
  if '0' ≤ c ∧ c ≤ '9' then some (c.toNat - '0'.toNat) else none

def isDigitChar (c : Char) : Bool := (digitVal? c).isSome

/-- Numeric value of a digit string (most significant first). -/
def digitsVal (cs : List Char) : ℕ :=
  cs.foldl (fun a c => 10 * a + ((digitVal? c).getD 0)) 0

/-- Character of a decimal digit (`n < 10`). -/
def digitChar10 (n : ℕ) : Char :=
  Char.ofNat ('0'.toNat + min n 9)

/-- Fueled decimal printer (structural recursion so the kernel can
evaluate it). -/
def numStrAux : ℕ → ℕ → List Char
  | 0, _ => []
  | fuel + 1, n =>
    if n < 10 then [digitChar10 n]
    else numStrAux fuel (n / 10) ++ [digitChar10 (n % 10)]

/-- Model of the JS template interpolation `${counter}`: decimal
representation of a natural number. -/
def numStrL (n : ℕ) : List Char := numStrAux (n + 1) n

/-! ### JS numbers with NaN -/

/-- A JS double as used in the confidence pipeline: either NaN or an exact
rational value. -/
inductive JsNum where
  | nan : JsNum
  | num : ℚ → JsNum
  deriving DecidableEq, Repr

namespace JsNum

/-- JS `<` on numbers: any comparison with NaN is false. -/
def lt : JsNum → JsNum → Bool
  | nan, _ => false
  | _, nan => false
  | num a, num b => decide (a < b)

/-- JS division of a (possibly NaN) number by a nonzero rational constant. -/
def divC : JsNum → ℚ → JsNum
  | nan, _ => nan
  | num a, d => num (a / d)

end JsNum

/-- Model of JS `parseFloat` restricted to finite decimal literals (optional
sign, integer digits, optional fraction); exponents and `Infinity` are not
produced by the modelled program and are omitted. Returns NaN when no digits
can be read. -/
def parseFloatL (cs0 : List Char) : JsNum :=
  let cs := cs0.dropWhile Char.isWhitespace
  let sign : ℚ := match cs with
    | '-' :: _ => -1
    | _ => 1
  let cs1 := match cs with
    | '-' :: r => r
    | '+' :: r => r
    | _ => cs
  let intPart := cs1.takeWhile isDigitChar
  let rest := cs1.dropWhile isDigitChar
  let fracPart := match rest with
    | '.' :: r => r.takeWhile isDigitChar
    | _ => []
  if intPart = [] ∧ fracPart = [] then JsNum.nan
  else JsNum.num (sign * ((digitsVal intPart : ℚ) +
    (digitsVal fracPart : ℚ) / (10 : ℚ) ^ fracPart.length))

/-! ### Path helpers (models of Node `path.join`, `basename`, `extname`) -/

/-- Model of `path.join(a, b)` for the forward-slash paths the program
builds. -/
def joinP (a b : String) : String :=
  String.mk (a.data ++ '/' :: b.data)

/-- Characters after the last `/` once trailing slashes are dropped:
Node `path.basename`. -/
def basenameChars (cs : List Char) : List Char :=
  (((cs.reverse.dropWhile (· = '/')).takeWhile (· ≠ '/'))).reverse

def basenameS (p : String) : String := String.mk (basenameChars p.data)

/-- Node `path.extname` on the basename characters: the suffix from the last
dot, empty when there is no dot or the only dot leads the name. -/
def extChars (b : List Char) : List Char :=
  let r := b.reverse
  let pre := r.takeWhile (· ≠ '.')
  if pre.length < r.length then
    if pre.length = r.length - 1 then []
    else '.' :: pre.reverse
  else []

/-- `basename(p, extname(p))`: the stem keeps everything before the
extension. -/
def stemChars (b : List Char) : List Char :=
  b.take (b.length - (extChars b).length)

/-! ### Core data structures (src/types.ts) -/

structure EntryMetadata where
  filePath : String
  folderPath : String
  createdAt : String
  deriving DecidableEq, Repr

structure VectorEntry where
  id : String
  embedding : List ℚ
  metadata : EntryMetadata
  deriving DecidableEq, Repr

structure SimilarNote where
  id : String
  filePath : String
  folderPath : String
  similarity : ℝ
  document : String

structure SortSuggestion where
  folder : String
  confidence : JsNum
  reason : String
  deriving DecidableEq, Repr

structure SortResult where
  success : Bool
  fromPath : Option String := none
  toPath : Option String := none
  confidence : Option JsNum := none
  error : Option String := none
  deriving DecidableEq, Repr

/-- Row of the `sort_history` table (src/types.ts `SortHistory`). -/
structure SortHistoryEntry where
  noteId : String
  fromPath : String
  toPath : String
  confidence : JsNum
  deriving DecidableEq, Repr

/-- Filesystem state: the set of existing regular files and of existing
directories, as path lists. -/
structure Fs where
  files : List String
  dirs : List String
  deriving DecidableEq, Repr

/-! ### VectorStore (src/vector-store.ts, class VectorStore)

The class field `vectors : VectorEntry[]` is the state; each method becomes a
function of that state (plus, for persistence, the snapshot file). -/

namespace VectorStore

/-- A filesystem write trace entry, used to state what `save` does to disk. -/
inductive FsOp where
  | write (path content : String)
  | rename (src dst : String)
  deriving DecidableEq, Repr

/-- Models `JSON.stringify` on the entry array (field-by-field JSON text;
the exact text is irrelevant to the claims, only that the whole array is
serialized as one unit). -/
def serializeEntry (e : VectorEntry) : String :=
  "\x7b\"id\":\"" ++ e.id ++ "\",\"embedding\":[" ++
    String.intercalate "," (e.embedding.map (fun q => toString q.num ++ "/" ++ toString q.den)) ++
    "],\"metadata\":\x7b\"filePath\":\"" ++ e.metadata.filePath ++
    "\",\"folderPath\":\"" ++ e.metadata.folderPath ++
    "\",\"createdAt\":\"" ++ e.metadata.createdAt ++ "\"\x7d\x7d"

def serializeStore (vectors : List VectorEntry) : String :=
  "[" ++ String.intercalate "," (vectors.map serializeEntry) ++ "]"

/-- `VectorStore.save`: the sequence of filesystem operations performed
(a single direct `writeFile` of the full serialization to the store path;
errors are caught and only logged). -/
def save (storePath : String) (vectors : List VectorEntry) : List FsOp :=
  [FsOp.write storePath (serializeStore vectors)]

/-- `VectorStore.load`. The snapshot argument is `none` when
`existsSync(storePath)` is false; otherwise `some r` where `r` is the
outcome of `readFile` + `JSON.parse` on the file (`none` when reading or
parsing throws, which the `catch` turns into an empty store). -/
def load (snapshot : Option (Option (List VectorEntry)))
    (vectors : List VectorEntry) : List VectorEntry :=
  match snapshot with
  | none => vectors
  | some none => []
  | some (some parsed) => parsed

/-- `VectorStore.add`: drop any entry with the same id, then push. -/
def add (vectors : List VectorEntry) (entry : VectorEntry) : List VectorEntry :=
  (vectors.filter (fun v => v.id ≠ entry.id)) ++ [entry]

/-- Value computed by `VectorStore.cosineSimilarity` once the length check
has passed: 0 when either norm is zero, otherwise the normalized dot
product. `Math.sqrt` is modelled by `Real.sqrt`. -/
noncomputable def cosSimVal (a b : List ℚ) : ℝ :=
  let dot : ℚ := (List.zipWith (· * ·) a b).sum
  let nA : ℝ := Real.sqrt (((a.map (fun x => x * x)).sum : ℚ) : ℝ)
  let nB : ℝ := Real.sqrt (((b.map (fun x => x * x)).sum : ℚ) : ℝ)
  if nA = 0 ∨ nB = 0 then 0
  else (dot : ℝ) / (nA * nB)

/-- `VectorStore.cosineSimilarity`: throws on length mismatch, otherwise
returns `cosSimVal`. -/
noncomputable def cosineSimilarity (a b : List ℚ) : Except String ℝ :=
  if a.length ≠ b.length then .error "Vectors must have same length"
  else .ok (cosSimVal a b)

/-- One step of the JS stable sort with comparator
`(a, b) => b.similarity - a.similarity`: insert `x` in front of the first
element whose key is not above `x`'s (stable descending insertion). -/
def insertDesc {α : Type _} {β : Type _} [LinearOrder β] (key : α → β) (x : α) :
    List α → List α
  | [] => [x]
  | y :: ys => if key y ≤ key x then x :: y :: ys else y :: insertDesc key x ys

/-- Model of `Array.prototype.sort` with the descending-similarity
comparator: a stable descending sort (the ECMAScript sort is specified
stable; for a consistent comparator it produces exactly the stable
descending order). -/
def sortDesc {α : Type _} {β : Type _} [LinearOrder β] (key : α → β)
    (l : List α) : List α :=
  l.foldr (insertDesc key) []

/-- The `this.vectors.map(entry => ({entry, similarity: ...}))` step of
`query`: left to right, the first exception thrown by `cosineSimilarity`
propagates. -/
noncomputable def simList (embedding : List ℚ) :
    List VectorEntry → Except String (List (VectorEntry × ℝ))
  | [] => .ok []
  | e :: es => do
    let s ← cosineSimilarity embedding e.embedding
    let rest ← simList embedding es
    .ok ((e, s) :: rest)

/-- Projection of a scored entry to the returned `SimilarNote` record. -/
noncomputable def toSimilarNote (p : VectorEntry × ℝ) : SimilarNote :=
  { id := p.1.id
    filePath := p.1.metadata.filePath
    folderPath := p.1.metadata.folderPath
    similarity := p.2
    document := "" }

/-- `VectorStore.query`: empty store short-circuits to `[]`; otherwise map
each entry to its similarity (an exception in `cosineSimilarity` propagates),
stable-sort descending, take `topK`, and project to `SimilarNote`s. -/
noncomputable def query (vectors : List VectorEntry) (embedding : List ℚ)
    (topK : ℕ) : Except String (List SimilarNote) :=
  if vectors.length = 0 then .ok []
  else do
    let similarities ← simList embedding vectors
    let sorted := sortDesc (fun p => p.2) similarities
    let topResults := sorted.take topK
    pure (topResults.map toSimilarNote)

/-- Verification-side view of the sort performed by `query`: the scored
entries tagged with their original position (insertion order), stably
sorted by descending similarity. Used to state that `query`'s output is
ordered by similarity with ties in insertion order. -/
noncomputable def rankedSims (vectors : List VectorEntry) (embedding : List ℚ) :
    List (ℕ × VectorEntry × ℝ) :=
  sortDesc (fun p => p.2.2)
    ((vectors.map (fun e => (e, cosSimVal embedding e.embedding))).enumFrom 0)

end VectorStore

/-! ### NoteSorter (src/vector-store.ts, class NoteSorter)

Console output and the post-move bookkeeping calls (`memory.recordSort`,
`memory.addNote`) do not influence any claim and are elided; prompts,
the LLM call and `readFileSync` are inputs of the environment. -/

namespace NoteSorter

/-- The three accumulators of the `parseLLMResponse` line loop: the folder,
the raw confidence string of the last `CONFIDENCE:` line (if any), and the
reason. Keeping the raw string makes the conversion step explicit;
`parseLLMResponse` below recombines them exactly as the source does. -/
def parseFields (response : String) : String × Option (List Char) × String :=
  (splitNL (trimChars response.data)).foldl (fun acc line =>
    let t := trimChars line
    if startsWithL "FOLDER:".data t then
      (String.mk (trimChars (t.drop 7)), acc.2.1, acc.2.2)
    else if startsWithL "CONFIDENCE:".data t then
      (acc.1, some (removeFirstChar '%' (trimChars (t.drop 11))), acc.2.2)
    else if startsWithL "REASON:".data t then
      (acc.1, acc.2.1, String.mk (trimChars (t.drop 7)))
    else acc) ("", none, "")

/-- `NoteSorter.parseLLMResponse`: line-oriented parse; the confidence is
`parseFloat(confStr) / 100` for the last `CONFIDENCE:` line, `0` when the
reply has none. -/
def parseLLMResponse (response : String) : SortSuggestion :=
  let f := parseFields response
  { folder := f.1
    confidence :=
      match f.2.1 with
      | none => JsNum.num 0
      | some cs => (parseFloatL cs).divC 100
    reason := f.2.2 }

/-- The fallback `folders.reduce(...)` of `getSuggestion`: JS `reduce`
without a seed starts from the head; each step keeps the accumulator
unless the current element occurs strictly more often in the whole array. -/
def mostCommonFolder (folders : List String) : String :=
  match folders with
  | [] => ""
  | x :: xs =>
    xs.foldl (fun a b => if folders.count b ≤ folders.count a then a else b) x

/-- `NoteSorter.getSuggestion` after context assembly: the prompt text only
feeds the external provider, so the model takes the provider outcome
directly (`.error` = the `ollama.chat` call threw). -/
def getSuggestion (llmResult : Except Unit String)
    (similarNotes : List SimilarNote) : SortSuggestion :=
  match llmResult with
  | .ok response => parseLLMResponse response
  | .error _ =>
    if similarNotes.length > 0 then
      { folder := mostCommonFolder (similarNotes.map (·.folderPath))
        confidence := JsNum.num (1 / 2)
        reason := "Fallback: based on similar notes" }
    else
      { folder := "", confidence := JsNum.num 0, reason := "" }

/-- The conflict name `` `${name}_${counter}${ext}` `` built from
`basename(sourcePath, extname(sourcePath))` and `extname(sourcePath)`. -/
def mkConflictName (sourcePath : String) (counter : ℕ) : String :=
  let b := basenameChars sourcePath.data
  String.mk (stemChars b ++ '_' :: numStrL counter ++ extChars b)

/-- The `while (existsSync(destination))` loop of `moveNote`, written with
explicit fuel so that it is structurally recursive; `moveNote` passes
`files.length + 1`, which always suffices because the candidate names are
pairwise distinct (`firstFreeAux_isSome` below). -/
def firstFreeAux (files : List String) (cand : ℕ → String) :
    ℕ → ℕ → Option String
  | _, 0 => none
  | c, fuel + 1 =>
    if cand c ∈ files then firstFreeAux files cand (c + 1) fuel
    else some (cand c)

/-- `NoteSorter.moveNote`: build the destination path, create the folder if
missing, resolve name conflicts by scanning `_1`, `_2`, … from 1, and rename
the source onto the chosen destination. Filesystem exceptions (the `catch`
branch returning `null`) are not modelled; `none` can only arise from fuel
exhaustion, which `firstFreeAux_isSome` rules out. -/
def moveNote (fs : Fs) (workspace sourcePath destinationFolder : String) :
    Option (String × Fs) :=
  let destFolder := joinP workspace destinationFolder
  let dirs1 := if destFolder ∈ fs.dirs then fs.dirs else destFolder :: fs.dirs
  let dest0 := joinP destFolder (basenameS sourcePath)
  let destination? :=
    if dest0 ∈ fs.files then
      firstFreeAux fs.files
        (fun c => joinP destFolder (mkConflictName sourcePath c))
        1 (fs.files.length + 1)
    else some dest0
  match destination? with
  | none => none
  | some destination =>
    some (destination,
      { files := fs.files.erase sourcePath ++ [destination], dirs := dirs1 })

/-- Environment of one `sortNote` call: everything the method reads from the
outside world. `content` is the `readFileSync` outcome (`none` = it threw),
`proceedAnswer`/`confirmAnswer` are the two `prompts.confirm` results
(`none` = cancelled with Ctrl-C, `some b` = the boolean answer). -/
structure SortEnv where
  content : Option String
  similarNotes : List SimilarNote
  llmResult : Except Unit String
  proceedAnswer : Option Bool
  confirmAnswer : Option Bool
  confidenceThreshold : ℚ
  workspace : String
  fs : Fs

/-- `content.trim().length` of the read note. -/
def trimmedLen (s : String) : ℕ := (trimChars s.data).length

/-- `NoteSorter.sortNote`: the decision pipeline, returning the
`SortResult` and the filesystem after the call. -/
def sortNote (env : SortEnv) (notePath : String) (auto dryRun : Bool) :
    SortResult × Fs :=
  match env.content with
  | none => ({ success := false, error := some "Failed to read file" }, env.fs)
  | some content =>
    if trimmedLen content < 10 then
      ({ success := false, error := some "Content too short" }, env.fs)
    else
      let suggestion := getSuggestion env.llmResult env.similarNotes
      if suggestion.folder = "" then
        ({ success := false, error := some "No suggestion" }, env.fs)
      else if JsNum.lt suggestion.confidence (JsNum.num env.confidenceThreshold)
          && !auto && env.proceedAnswer != some true then
        ({ success := false, error := some "User cancelled" }, env.fs)
      else if dryRun then
        ({ success := true, fromPath := some notePath,
           toPath := some (joinP (joinP env.workspace suggestion.folder)
             (basenameS notePath)),
           confidence := some suggestion.confidence }, env.fs)
      else if !auto && env.confirmAnswer != some true then
        ({ success := false, error := some "User cancelled" }, env.fs)
      else
        match moveNote env.fs env.workspace notePath suggestion.folder with
        | some (destination, fs1) =>
          ({ success := true, fromPath := some notePath,
             toPath := some destination,
             confidence := some suggestion.confidence }, fs1)
        | none => ({ success := false, error := some "Failed to move file" }, env.fs)

/-- `MemoryManager.getLastSort`: the `sort_history` row with the highest
autoincrement id, i.e. the most recently appended entry. -/
def getLastSort (history : List SortHistoryEntry) : Option SortHistoryEntry :=
  history.getLast?

/-- `fromPath.substring(0, fromPath.lastIndexOf("/"))` (empty when the path
has no slash, since `lastIndexOf` is `-1`). -/
def dirnamePart (p : String) : String :=
  String.mk (((p.data.reverse.dropWhile (· ≠ '/')).drop 1).reverse)

/-- `NoteSorter.undoLastSort`: fail on empty history or when the recorded
destination no longer exists; otherwise recreate the source directory if
needed and rename the file back. -/
def undoLastSort (history : List SortHistoryEntry) (fs : Fs) : Bool × Fs :=
  match getLastSort history with
  | none => (false, fs)
  | some lastSort =>
    if lastSort.toPath ∈ fs.files then
      let sourceDir := dirnamePart lastSort.fromPath
      let dirs1 := if sourceDir ∈ fs.dirs then fs.dirs else sourceDir :: fs.dirs
      (true, { files := fs.files.erase lastSort.toPath ++ [lastSort.fromPath]
               dirs := dirs1 })
    else (false, fs)

end NoteSorter

/-! ### Spec-side predicates used to compare code behaviour with the
specification's words -/

/-- The persistence pattern §4.1 mandates for `save`: first write the
serialization to a temporary location, then atomically rename it onto the
snapshot path. -/
def atomicSaveShape (ops : List VectorStore.FsOp) (storePath : String) : Prop :=
  ∃ tmp content, tmp ≠ storePath ∧
    ops = [VectorStore.FsOp.write tmp content,
           VectorStore.FsOp.rename tmp storePath]

/-- The spec's invariant for a parsed suggestion: confidence lies in `[0,1]`
(NaN is not a value of that interval). -/
def confInUnit : JsNum → Prop
  | .nan => False
  | .num q => 0 ≤ q ∧ q ≤ 1

/-! ### Concrete classification environments used by the confidence-policy
claims: a readable note, no neighbors, threshold 0.7, prompts cancelled. -/

/-- Environment in which the provider replies with a well-formed suggestion
whose confidence is 65 (below the 0.7 threshold). -/
def envBelow : NoteSorter.SortEnv :=
  { content := some "A sufficiently long note body."
    similarNotes := []
    llmResult := .ok "FOLDER: work\nCONFIDENCE: 65\nREASON: r"
    proceedAnswer := none
    confirmAnswer := none
    confidenceThreshold := 7 / 10
    workspace := "ws"
    fs := ⟨[], []⟩ }

/-- Environment in which the provider replies with a folder but a
non-numeric confidence value. -/
def envNaNConf : NoteSorter.SortEnv :=
  { envBelow with
    llmResult := .ok "FOLDER: work\nCONFIDENCE: high\nREASON: because" }

/-- Environment in which the provider call throws and there are no
neighbors. -/
def envNoNeighbors : NoteSorter.SortEnv :=
  { envBelow with llmResult := .error () }

/-- The spec's description of the fallback choice (§4.4 step 6): `r` occurs
in `l`, no element occurs more often than `r`, and among the elements tied
with `r` for the highest count, `r` is the first encountered. -/
def IsPlurality (l : List String) (r : String) : Prop :=
  r ∈ l ∧ (∀ y ∈ l, l.count y ≤ l.count r) ∧
  (∀ y ∈ l, l.count y = l.count r → l.indexOf r ≤ l.indexOf y)

/-! ## Theorems -/

open VectorStore NoteSorter

/-! ### C2: persistence is a direct in-place write, not temp-file + atomic
rename -/

/-- C2, counterexample: already on a concrete store, `save` emits a single
direct write to the snapshot path, so it does not have the
write-temporary-then-rename shape the spec mandates. -/
theorem save_not_atomic_counterexample :
    VectorStore.save "vectors.json" [] =
      [FsOp.write "vectors.json" (serializeStore [])] ∧
    ¬ atomicSaveShape (VectorStore.save "vectors.json" []) "vectors.json" := by
  refine ⟨rfl, ?_⟩
  rintro ⟨tmp, content, hne, h⟩
  simp [VectorStore.save] at h

/-- C2, amended: for every store state, `save` performs exactly one
filesystem operation — a direct `writeFile` of the full serialization to the
snapshot path itself — and never the temporary-write-plus-atomic-rename
pattern; a crash mid-write therefore hits the live snapshot file. -/
theorem save_writes_snapshot_directly (storePath : String)
    (vectors : List VectorEntry) :
    VectorStore.save storePath vectors =
      [FsOp.write storePath (serializeStore vectors)] ∧
    ¬ atomicSaveShape (VectorStore.save storePath vectors) storePath := by
  refine ⟨rfl, ?_⟩
  rintro ⟨tmp, content, hne, h⟩
  simp [VectorStore.save] at h

/-! ### C9: load failure behaviour -/

/-- C9: `load` is total (every branch, including the catch, returns
normally). When the snapshot file is absent the in-memory entry list is left
untouched — hence still empty for a freshly constructed store — and when
reading or parsing throws it is reset to `[]`; in both cases subsequent
queries behave exactly as on a fresh index. -/
theorem load_failure_behaves_fresh (v : List VectorEntry) (q : List ℚ)
    (k : ℕ) :
    VectorStore.load none v = v ∧
    VectorStore.load (some none) v = [] ∧
    VectorStore.query (VectorStore.load (some none) v) q k = .ok [] ∧
    VectorStore.load none ([] : List VectorEntry) = [] ∧
    VectorStore.query (VectorStore.load none ([] : List VectorEntry)) q k =
      .ok [] := by
  refine ⟨rfl, rfl, ?_, rfl, ?_⟩ <;> simp [VectorStore.load, VectorStore.query]

/-! ### C10: re-adding an id moves the entry to the end of the iteration
order -/

/-- C10: if the index already holds an entry `old` with the id of `entry`,
then `add` removes every entry with that id and appends the replacement at
the very end: the result is the id-filtered list plus `entry`, whose last
element is `entry`; `old` is gone from the remainder, and every remaining
entry is an original entry with a different id (so `entry` now comes last in
the iteration order that `query`'s stable sort uses for tie-breaking). -/
theorem add_replaces_and_appends (vs : List VectorEntry)
    (entry old : VectorEntry) (hmem : old ∈ vs) (hid : old.id = entry.id) :
    VectorStore.add vs entry =
      vs.filter (fun v => v.id ≠ entry.id) ++ [entry] ∧
    (VectorStore.add vs entry).getLast? = some entry ∧
    old ∉ (VectorStore.add vs entry).dropLast ∧
    ∀ x ∈ (VectorStore.add vs entry).dropLast, x.id ≠ entry.id ∧ x ∈ vs := by
  refine ⟨rfl, ?_, ?_, ?_⟩
  · simp [VectorStore.add]
  · intro hx
    rw [show VectorStore.add vs entry =
        vs.filter (fun v => v.id ≠ entry.id) ++ [entry] from rfl,
      List.dropLast_concat] at hx
    have := (List.mem_filter.mp hx).2
    simp [hid] at this
  · intro x hx
    rw [show VectorStore.add vs entry =
        vs.filter (fun v => v.id ≠ entry.id) ++ [entry] from rfl,
      List.dropLast_concat] at hx
    have h1 := (List.mem_filter.mp hx).1
    have h2 := (List.mem_filter.mp hx).2
    simp at h2
    exact ⟨h2, h1⟩

/-- C10 witness at a concrete two-entry store. -/
theorem add_replaces_and_appends_witness :
    VectorStore.add
        [⟨"a", [1], ⟨"fa", "da", "t"⟩⟩, ⟨"b", [2], ⟨"fb", "db", "t"⟩⟩]
        ⟨"a", [3], ⟨"fa2", "da2", "t2"⟩⟩ =
      [⟨"b", [2], ⟨"fb", "db", "t"⟩⟩, ⟨"a", [3], ⟨"fa2", "da2", "t2"⟩⟩] ∧
    (VectorStore.add
        [⟨"a", [1], ⟨"fa", "da", "t"⟩⟩, ⟨"b", [2], ⟨"fb", "db", "t"⟩⟩]
        ⟨"a", [3], ⟨"fa2", "da2", "t2"⟩⟩).getLast? =
      some ⟨"a", [3], ⟨"fa2", "da2", "t2"⟩⟩ := by
  have h := add_replaces_and_appends
    [⟨"a", [1], ⟨"fa", "da", "t"⟩⟩, ⟨"b", [2], ⟨"fb", "db", "t"⟩⟩]
    ⟨"a", [3], ⟨"fa2", "da2", "t2"⟩⟩ ⟨"a", [1], ⟨"fa", "da", "t"⟩⟩
    (by decide) (by decide)
  exact ⟨by decide, h.2.1⟩

/-! ### C7: undo fails without mutation on empty history or missing file -/

/-- C7: with an empty history `undoLastSort` reports failure and leaves the
filesystem untouched, and when the most recent history entry's recorded
destination no longer exists it likewise fails without mutating anything. -/
theorem undo_fails_without_mutation (history : List SortHistoryEntry)
    (fs : Fs) (e : SortHistoryEntry)
    (hlast : getLastSort history = some e) (hgone : e.toPath ∉ fs.files) :
    undoLastSort [] fs = (false, fs) ∧
    undoLastSort history fs = (false, fs) := by
  constructor
  · rfl
  · unfold undoLastSort
    rw [hlast]
    simp [hgone]

/-- C7 witness: one-entry history whose destination file is absent. -/
theorem undo_fails_without_mutation_witness :
    undoLastSort [] ⟨["x"], []⟩ = (false, ⟨["x"], []⟩) ∧
    undoLastSort [⟨"n", "inbox/n.md", "ws/work/n.md", JsNum.num 1⟩]
      ⟨["x"], []⟩ = (false, ⟨["x"], []⟩) := by
  exact undo_fails_without_mutation
    [⟨"n", "inbox/n.md", "ws/work/n.md", JsNum.num 1⟩]
    ⟨["x"], []⟩ ⟨"n", "inbox/n.md", "ws/work/n.md", JsNum.num 1⟩
    (by decide) (by decide)

/-! ### C1: automatic mode ignores the confidence threshold -/

/-- C1: with threshold 0.7 and a parsed confidence of 0.65 (strictly below
threshold), `sortNote` in automatic mode (`auto = true`, no force parameter
even exists) moves the note and reports success, instead of leaving it
unmoved and reporting a below-threshold outcome; the interactive half of the
claim does hold — with the same suggestion, declining the explicit
"Proceed anyway?" decision leaves the note unmoved. -/
theorem sortNote_auto_moves_below_threshold :
    (getSuggestion envBelow.llmResult envBelow.similarNotes).confidence =
      JsNum.num (13 / 20) ∧
    JsNum.lt (JsNum.num (13 / 20)) (JsNum.num envBelow.confidenceThreshold) =
      true ∧
    sortNote envBelow "inbox/note.md" true false =
      ({ success := true, fromPath := some "inbox/note.md",
         toPath := some "ws/work/note.md",
         confidence := some (JsNum.num (13 / 20)) },
       ⟨["ws/work/note.md"], ["ws/work"]⟩) ∧
    sortNote { envBelow with proceedAnswer := some false }
        "inbox/note.md" false false =
      ({ success := false, error := some "User cancelled" }, envBelow.fs) := by
  refine ⟨?_, ?_, ?_, ?_⟩ <;>
    simp +decide [sortNote, envBelow, getSuggestion, parseLLMResponse,
      parseFields, trimmedLen, moveNote, mkConflictName, firstFreeAux,
      stemChars, extChars, numStrL, numStrAux, digitChar10, JsNum.lt,
      JsNum.divC, joinP, basenameS, basenameChars, trimChars, splitNL,
      startsWithL, removeFirstChar, parseFloatL, digitsVal, digitVal?,
      isDigitChar] <;>
    norm_num

/-! ### C8: a NaN confidence passes the threshold check in automatic mode -/

/-- C8: for a provider reply with a `FOLDER:` line and the non-numeric
confidence value `high`, the parsed confidence is NaN; `NaN < threshold` is
false under JS comparison semantics, so automatic-mode `sortNote` treats the
suggestion as meeting the threshold and moves the note. -/
theorem sortNote_auto_moves_nan_confidence :
    (parseLLMResponse "FOLDER: work\nCONFIDENCE: high\nREASON: because").confidence = JsNum.nan ∧
    JsNum.lt JsNum.nan (JsNum.num envNaNConf.confidenceThreshold) = false ∧
    sortNote envNaNConf "inbox/note.md" true false =
      ({ success := true, fromPath := some "inbox/note.md",
         toPath := some "ws/work/note.md",
         confidence := some JsNum.nan },
       ⟨["ws/work/note.md"], ["ws/work"]⟩) := by
  refine ⟨?_, ?_, ?_⟩ <;>
    simp +decide [sortNote, envNaNConf, envBelow, getSuggestion,
      parseLLMResponse, parseFields, trimmedLen, moveNote, mkConflictName,
      firstFreeAux, stemChars, extChars, numStrL, numStrAux, digitChar10,
      JsNum.lt, JsNum.divC, joinP, basenameS, basenameChars, trimChars,
      splitNL, startsWithL, removeFirstChar, parseFloatL, digitsVal,
      digitVal?, isDigitChar]

/-! ### C5: parsed confidence is only in [0,1] for in-range replies -/

/-- C5, counterexample: the reply `CONFIDENCE: 500` parses to confidence 5,
which is not in `[0,1]` — the conversion divides by 100 but never clamps,
so the invariant fails for out-of-range replies. -/
theorem parse_confidence_out_of_range_counterexample :
    (parseLLMResponse "FOLDER: a\nCONFIDENCE: 500\nREASON: r").confidence =
      JsNum.num 5 ∧
    ¬ confInUnit (JsNum.num 5) := by
  constructor
  · simp +decide [parseLLMResponse, parseFields, trimChars, splitNL,
      startsWithL, removeFirstChar, parseFloatL, digitsVal, digitVal?,
      isDigitChar, JsNum.divC]
    norm_num
  · simp only [confInUnit]
    rintro ⟨-, h⟩
    norm_num at h

/-- C5, amended: the parser converts the confidence field by dividing the
`parseFloat` value by 100, so whenever the reply's confidence field parses
to a numeric value in the documented 0–100 range, the resulting suggestion
confidence lies in `[0,1]`; out-of-range or non-numeric fields escape the
interval (see the counterexample). -/
theorem parse_confidence_scaled_into_unit (resp : String) (cs : List Char)
    (c : ℚ) (hfield : (parseFields resp).2.1 = some cs)
    (hval : parseFloatL cs = JsNum.num c) (h0 : 0 ≤ c) (h100 : c ≤ 100) :
    (parseLLMResponse resp).confidence = JsNum.num (c / 100) ∧
    confInUnit ((parseLLMResponse resp).confidence) := by
  have hconf : (parseLLMResponse resp).confidence = JsNum.num (c / 100) := by
    simp only [parseLLMResponse, hfield, hval, JsNum.divC]
  refine ⟨hconf, ?_⟩
  rw [hconf]
  exact ⟨by positivity, by linarith⟩

/-- C5 witness: a reply whose confidence field is 85. -/
theorem parse_confidence_scaled_into_unit_witness :
    (parseLLMResponse "FOLDER: a\nCONFIDENCE: 85\nREASON: r").confidence =
      JsNum.num (85 / 100) ∧
    confInUnit ((parseLLMResponse "FOLDER: a\nCONFIDENCE: 85\nREASON: r").confidence) :=
  parse_confidence_scaled_into_unit "FOLDER: a\nCONFIDENCE: 85\nREASON: r"
    "85".data 85 (by decide)
    (by simp +decide [parseFloatL, digitsVal, digitVal?, isDigitChar])
    (by norm_num) (by norm_num)

/-! ### C3: the provider-failure fallback picks the plurality folder -/

/-- Invariant of the `reduce` loop in the fallback: processing the remaining
elements of `l` keeps the accumulator a first-encountered plurality element
of the prefix seen so far, yielding a plurality element of `l`. -/
theorem mostCommon_foldl_invariant (l : List String) (rest : List String) :
    ∀ (p : List String) (acc : String), l = p ++ rest → acc ∈ p →
      (∀ y ∈ p, l.count y ≤ l.count acc) →
      (∀ y ∈ p, l.count y = l.count acc → l.indexOf acc ≤ l.indexOf y) →
      IsPlurality l
        (rest.foldl (fun a b => if l.count b ≤ l.count a then a else b) acc) := by
  induction rest with
  | nil =>
    intro p acc hl hmem hcount htie
    rw [List.append_nil] at hl
    subst hl
    exact ⟨hmem, hcount, htie⟩
  | cons b rest ih =>
    intro p acc hl hmem hcount htie
    rw [List.foldl_cons]
    by_cases hc : l.count b ≤ l.count acc
    · rw [if_pos hc]
      refine ih (p ++ [b]) acc (by rw [hl, List.append_assoc]; rfl)
        (List.mem_append_left _ hmem) ?_ ?_
      · intro y hy
        rcases List.mem_append.mp hy with hyp | hyb
        · exact hcount y hyp
        · rw [List.mem_singleton.mp hyb]; exact hc
      · intro y hy heq
        rcases List.mem_append.mp hy with hyp | hyb
        · exact htie y hyp heq
        · rw [List.mem_singleton.mp hyb] at heq ⊢
          by_cases hbp : b ∈ p
          · exact htie b hbp heq
          · have hacc : l.indexOf acc < p.length := by
              rw [hl, List.indexOf_append_of_mem hmem]
              exact List.indexOf_lt_length.mpr hmem
            have hb : p.length ≤ l.indexOf b := by
              rw [hl, List.indexOf_append_of_not_mem hbp]
              omega
            omega
    · rw [if_neg hc]
      push_neg at hc
      refine ih (p ++ [b]) b (by rw [hl, List.append_assoc]; rfl)
        (List.mem_append_right _ (List.mem_singleton_self b)) ?_ ?_
      · intro y hy
        rcases List.mem_append.mp hy with hyp | hyb
        · exact le_of_lt (lt_of_le_of_lt (hcount y hyp) hc)
        · rw [List.mem_singleton.mp hyb]
      · intro y hy heq
        rcases List.mem_append.mp hy with hyp | hyb
        · have := hcount y hyp
          omega
        · rw [List.mem_singleton.mp hyb]

/-- The `reduce`-based fallback returns a plurality element with ties broken
by first encounter, for every nonempty folder list. -/
theorem mostCommonFolder_plurality (l : List String) (h : l ≠ []) :
    IsPlurality l (mostCommonFolder l) := by
  match l, h with
  | x :: xs, _ =>
    have hinv := mostCommon_foldl_invariant (x :: xs) xs [x] x rfl
      (List.mem_singleton_self x)
      (by intro y hy; rw [List.mem_singleton.mp hy])
      (by intro y hy heq; rw [List.mem_singleton.mp hy])
    simpa [mostCommonFolder] using hinv

/-- C3: when the provider request fails and the neighbor list is nonempty,
the fallback suggestion's folder is the plurality folder among the
neighbors' folders (ties broken by the first-encountered folder in the
neighbor ranking) and its confidence is exactly 0.5; for the folders
`["work/meetings","work/meetings","ideas"]` the plurality folder is
`"work/meetings"`; with no neighbors the fallback is the empty folder with
confidence 0, and `sortNote` then reports the `No suggestion` outcome
without touching the filesystem. -/
theorem fallback_suggestion_plurality (sn : List SimilarNote) (hne : sn ≠ []) :
    (getSuggestion (.error ()) sn).folder =
      mostCommonFolder (sn.map (·.folderPath)) ∧
    IsPlurality (sn.map (·.folderPath)) ((getSuggestion (.error ()) sn).folder) ∧
    (getSuggestion (.error ()) sn).confidence = JsNum.num (1 / 2) ∧
    (getSuggestion (.error ()) sn).reason = "Fallback: based on similar notes" ∧
    mostCommonFolder ["work/meetings", "work/meetings", "ideas"] =
      "work/meetings" ∧
    getSuggestion (.error ()) ([] : List SimilarNote) =
      ⟨"", JsNum.num 0, ""⟩ ∧
    sortNote envNoNeighbors "inbox/note.md" true false =
      ({ success := false, error := some "No suggestion" },
       envNoNeighbors.fs) := by
  have hpos : 0 < sn.length := List.length_pos.mpr hne
  have hfolder : (getSuggestion (.error ()) sn).folder =
      mostCommonFolder (sn.map (·.folderPath)) := by
    simp [getSuggestion, hpos]
  refine ⟨hfolder, ?_, ?_, ?_, ?_, ?_, ?_⟩
  · rw [hfolder]
    exact mostCommonFolder_plurality _ (by simpa using hne)
  · simp [getSuggestion, hpos]
  · simp [getSuggestion, hpos]
  · decide
  · rfl
  · simp +decide [sortNote, envNoNeighbors, envBelow, getSuggestion,
      trimmedLen, trimChars]

/-- C3 witness at the spec's three-neighbor example. -/
theorem fallback_suggestion_plurality_witness :
    (getSuggestion (.error ())
        [⟨"1", "f1", "work/meetings", 0, ""⟩,
         ⟨"2", "f2", "work/meetings", 0, ""⟩,
         ⟨"3", "f3", "ideas", 0, ""⟩]).folder =
      mostCommonFolder ["work/meetings", "work/meetings", "ideas"] ∧
    (getSuggestion (.error ())
        [⟨"1", "f1", "work/meetings", 0, ""⟩,
         ⟨"2", "f2", "work/meetings", 0, ""⟩,
         ⟨"3", "f3", "ideas", 0, ""⟩]).confidence = JsNum.num (1 / 2) := by
  have h := fallback_suggestion_plurality
    [⟨"1", "f1", "work/meetings", 0, ""⟩,
     ⟨"2", "f2", "work/meetings", 0, ""⟩,
     ⟨"3", "f3", "ideas", 0, ""⟩] (by simp)
  exact ⟨by rw [h.1]; simp, h.2.2.1⟩

/-! ### C4: query is a stable descending sort truncated to k -/

/-- Inserting with `insertDesc` permutes the element onto the list. -/
theorem insertDesc_perm {α β : Type _} [LinearOrder β] (key : α → β) (x : α)
    (l : List α) : (insertDesc key x l).Perm (x :: l) := by
  induction l with
  | nil => exact List.Perm.refl _
  | cons y ys ih =>
    simp only [insertDesc]
    by_cases h : key y ≤ key x
    · rw [if_pos h]
    · rw [if_neg h]
      exact (ih.cons y).trans (List.Perm.swap x y ys)

/-- `sortDesc` permutes its input. -/
theorem sortDesc_perm {α β : Type _} [LinearOrder β] (key : α → β)
    (l : List α) : (sortDesc key l).Perm l := by
  induction l with
  | nil => exact List.Perm.refl _
  | cons x xs ih =>
    exact (insertDesc_perm key x (sortDesc key xs)).trans (ih.cons x)

/-- Stability invariant of one insertion: if the list is ordered by
descending key with equal keys in increasing original position, and `x`
originally precedes every element of the list, insertion preserves that
order. -/
theorem insertDesc_pairwise {α β : Type _} [LinearOrder β] (key : α → β)
    (idx : α → ℕ) (x : α) (l : List α)
    (hl : l.Pairwise (fun a b => key b < key a ∨ (key a = key b ∧ idx a < idx b)))
    (hx : ∀ y ∈ l, idx x < idx y) :
    (insertDesc key x l).Pairwise
      (fun a b => key b < key a ∨ (key a = key b ∧ idx a < idx b)) := by
  induction l with
  | nil => simp [insertDesc]
  | cons y ys ih =>
    have hpc := List.pairwise_cons.mp hl
    simp only [insertDesc]
    by_cases h : key y ≤ key x
    · rw [if_pos h]
      refine List.Pairwise.cons ?_ hl
      intro z hz
      rcases List.mem_cons.mp hz with rfl | hzys
      · rcases lt_or_eq_of_le h with hlt | heq
        · exact Or.inl hlt
        · exact Or.inr ⟨heq.symm, hx z (List.mem_cons_self z ys)⟩
      · have hyz := hpc.1 z hzys
        have hzley : key z ≤ key y := by
          rcases hyz with h1 | h1
          · exact le_of_lt h1
          · exact le_of_eq h1.1.symm
        rcases lt_or_eq_of_le (le_trans hzley h) with hlt | heq
        · exact Or.inl hlt
        · exact Or.inr ⟨heq.symm, hx z (List.mem_cons_of_mem y hzys)⟩
    · rw [if_neg h]
      push_neg at h
      refine List.Pairwise.cons ?_
        (ih hpc.2 (fun z hz => hx z (List.mem_cons_of_mem y hz)))
      intro z hz
      have hz' := (insertDesc_perm key x ys).mem_iff.mp hz
      rcases List.mem_cons.mp hz' with rfl | hzys
      · exact Or.inl h
      · exact hpc.1 z hzys

/-- `sortDesc` of a list with strictly increasing positions is ordered by
descending key, equal keys in increasing position: the full functional
specification of a stable descending sort. -/
theorem sortDesc_pairwise {α β : Type _} [LinearOrder β] (key : α → β)
    (idx : α → ℕ) (l : List α)
    (hl : l.Pairwise (fun a b => idx a < idx b)) :
    (sortDesc key l).Pairwise
      (fun a b => key b < key a ∨ (key a = key b ∧ idx a < idx b)) := by
  induction l with
  | nil => simp [sortDesc]
  | cons x xs ih =>
    have hpc := List.pairwise_cons.mp hl
    show (insertDesc key x (sortDesc key xs)).Pairwise _
    refine insertDesc_pairwise key idx x (sortDesc key xs) (ih hpc.2) ?_
    intro y hy
    exact hpc.1 y ((sortDesc_perm key xs).mem_iff.mp hy)

/-- Dropping the position tags commutes with one insertion. -/
theorem insertDesc_map_snd {α β : Type _} [LinearOrder β] (key : α → β)
    (x : ℕ × α) (l : List (ℕ × α)) :
    (insertDesc (fun p => key p.2) x l).map Prod.snd =
      insertDesc key x.2 (l.map Prod.snd) := by
  induction l with
  | nil => rfl
  | cons y ys ih =>
    simp only [insertDesc, List.map_cons]
    by_cases h : key y.2 ≤ key x.2
    · rw [if_pos h, if_pos h]
      simp
    · rw [if_neg h, if_neg h]
      simp only [List.map_cons, ih]

/-- Dropping the position tags commutes with the whole sort: sorting the
enumerated list and projecting is the sort `query` actually runs. -/
theorem sortDesc_enumFrom_map_snd {α β : Type _} [LinearOrder β]
    (key : α → β) (l : List α) :
    ∀ n : ℕ,
      (sortDesc (fun p => key p.2) (l.enumFrom n)).map Prod.snd =
        sortDesc key l := by
  induction l with
  | nil => intro n; rfl
  | cons x xs ih =>
    intro n
    show (insertDesc (fun p => key p.2) (n, x)
        (sortDesc _ (xs.enumFrom (n + 1)))).map Prod.snd = _
    rw [insertDesc_map_snd, ih (n + 1)]
    rfl

/-- Every element of `enumFrom n l` carries a position at least `n`. -/
theorem le_fst_of_mem_enumFrom {α : Type _} (l : List α) :
    ∀ (n : ℕ) (p : ℕ × α), p ∈ l.enumFrom n → n ≤ p.1 := by
  induction l with
  | nil => intro n p hp; simp [List.enumFrom] at hp
  | cons x xs ih =>
    intro n p hp
    rcases List.mem_cons.mp hp with rfl | hp'
    · exact le_refl n
    · exact le_trans (Nat.le_succ n) (ih (n + 1) p hp')

/-- The positions in `enumFrom` are strictly increasing. -/
theorem enumFrom_pairwise_fst_lt {α : Type _} (l : List α) :
    ∀ n : ℕ, (l.enumFrom n).Pairwise (fun a b => a.1 < b.1) := by
  induction l with
  | nil => intro n; simp [List.enumFrom]
  | cons x xs ih =>
    intro n
    refine List.Pairwise.cons ?_ (ih (n + 1))
    intro p hp
    exact lt_of_lt_of_le (Nat.lt_succ_self n) (le_fst_of_mem_enumFrom xs (n + 1) p hp)

/-- When every entry has the query's dimension, the similarity-mapping step
succeeds and yields the entries paired with their `cosSimVal`. -/
theorem simList_ok (q : List ℚ) (vs : List VectorEntry)
    (h : ∀ e ∈ vs, e.embedding.length = q.length) :
    simList q vs = .ok (vs.map (fun e => (e, cosSimVal q e.embedding))) := by
  induction vs with
  | nil => rfl
  | cons e es ih =>
    have h1 : cosineSimilarity q e.embedding = .ok (cosSimVal q e.embedding) := by
      rw [cosineSimilarity, if_neg]
      simp [h e (List.mem_cons_self e es)]
    simp [simList, h1, ih (fun e' he' => h e' (List.mem_cons_of_mem e he')),
      Bind.bind, Except.bind]

/-- C4: on an empty index `query` returns `.ok []` (never an error), and on
a dimension-consistent index it succeeds with the entries stably sorted by
descending cosine similarity — the output is the position-tagged sort
`rankedSims` (a permutation of the scored entries that is pairwise ordered
by descending similarity, equal similarities in increasing insertion
position) projected to `SimilarNote`s and truncated to `k` — and has length
`min k (index size)`, hence all entries when `k` is at least the index
size. -/
theorem query_sorted_stable (vs : List VectorEntry) (q : List ℚ) (k : ℕ)
    (hdim : ∀ e ∈ vs, e.embedding.length = q.length) :
    VectorStore.query ([] : List VectorEntry) q k = .ok [] ∧
    ∃ out, VectorStore.query vs q k = .ok out ∧
      out = (((rankedSims vs q).map Prod.snd).take k).map toSimilarNote ∧
      (rankedSims vs q).Perm
        ((vs.map (fun e => (e, cosSimVal q e.embedding))).enumFrom 0) ∧
      (rankedSims vs q).Pairwise
        (fun a b => b.2.2 < a.2.2 ∨ (a.2.2 = b.2.2 ∧ a.1 < b.1)) ∧
      out.length = min k vs.length ∧
      (vs.length ≤ k → out.length = vs.length) := by
  refine ⟨by simp [VectorStore.query], ?_⟩
  have hperm : (rankedSims vs q).Perm
      ((vs.map (fun e => (e, cosSimVal q e.embedding))).enumFrom 0) :=
    sortDesc_perm _ _
  have hpair : (rankedSims vs q).Pairwise
      (fun a b => b.2.2 < a.2.2 ∨ (a.2.2 = b.2.2 ∧ a.1 < b.1)) := by
    have := sortDesc_pairwise (fun p : ℕ × VectorEntry × ℝ => p.2.2)
      (fun p => p.1)
      ((vs.map (fun e => (e, cosSimVal q e.embedding))).enumFrom 0)
      (enumFrom_pairwise_fst_lt _ 0)
    exact this
  have hmapsnd : (rankedSims vs q).map Prod.snd =
      sortDesc (fun p : VectorEntry × ℝ => p.2)
        (vs.map (fun e => (e, cosSimVal q e.embedding))) :=
    sortDesc_enumFrom_map_snd (fun r : VectorEntry × ℝ => r.2) _ 0
  cases vs with
  | nil =>
    refine ⟨[], by simp [VectorStore.query], ?_, hperm, hpair, by simp, by simp⟩
    simp [rankedSims, sortDesc, List.enumFrom]
  | cons v vs' =>
    have hok := simList_ok q (v :: vs') hdim
    have hq : VectorStore.query (v :: vs') q k =
        .ok ((((rankedSims (v :: vs') q).map Prod.snd).take k).map toSimilarNote) := by
      rw [VectorStore.query, if_neg (by simp)]
      simp only [hok, Bind.bind, Except.bind, hmapsnd]
      rfl
    have hlen : (rankedSims (v :: vs') q).length = (v :: vs').length := by
      rw [hperm.length_eq, List.enumFrom_length, List.length_map]
    refine ⟨_, hq, rfl, hperm, hpair, ?_, ?_⟩
    · rw [List.length_map, List.length_take, List.length_map, hlen]
    · intro hk
      rw [List.length_map, List.length_take, List.length_map, hlen]
      omega

/-- C4 witness: two orthogonal unit entries, query along the first axis. -/
theorem query_sorted_stable_witness :
    VectorStore.query ([] : List VectorEntry) [1, 0] 5 = .ok [] ∧
    ∃ out,
      VectorStore.query
          [⟨"a", [1, 0], ⟨"fa", "da", "t"⟩⟩, ⟨"b", [0, 1], ⟨"fb", "db", "t"⟩⟩]
          [1, 0] 5 = .ok out ∧
      out = (((rankedSims
          [⟨"a", [1, 0], ⟨"fa", "da", "t"⟩⟩, ⟨"b", [0, 1], ⟨"fb", "db", "t"⟩⟩]
          [1, 0]).map Prod.snd).take 5).map toSimilarNote ∧
      (rankedSims
          [⟨"a", [1, 0], ⟨"fa", "da", "t"⟩⟩, ⟨"b", [0, 1], ⟨"fb", "db", "t"⟩⟩]
          [1, 0]).Perm
        (([⟨"a", [1, 0], ⟨"fa", "da", "t"⟩⟩,
           ⟨"b", [0, 1], ⟨"fb", "db", "t"⟩⟩].map
            (fun e => (e, VectorStore.cosSimVal [1, 0] e.embedding))).enumFrom 0) ∧
      (rankedSims
          [⟨"a", [1, 0], ⟨"fa", "da", "t"⟩⟩, ⟨"b", [0, 1], ⟨"fb", "db", "t"⟩⟩]
          [1, 0]).Pairwise
        (fun a b => b.2.2 < a.2.2 ∨ (a.2.2 = b.2.2 ∧ a.1 < b.1)) ∧
      out.length = min 5 2 ∧
      (2 ≤ 5 → out.length = 2) := by
  have h := query_sorted_stable
    [⟨"a", [1, 0], ⟨"fa", "da", "t"⟩⟩, ⟨"b", [0, 1], ⟨"fb", "db", "t"⟩⟩]
    [1, 0] 5 (by intro e he; fin_cases he <;> rfl)
  exact h

/-! ### C6: conflict renaming scans `_1`, `_2`, … and never overwrites -/

/-- Decimal digits print-then-read correctly. -/
theorem digitVal_digitChar10 (n : ℕ) (h : n < 10) :
    (digitVal? (digitChar10 n)).getD 0 = n := by
  interval_cases n <;> rfl

/-- Appending one digit multiplies the read value by ten and adds it. -/
theorem digitsVal_append_one (l : List Char) (c : Char) :
    digitsVal (l ++ [c]) = 10 * digitsVal l + (digitVal? c).getD 0 := by
  unfold digitsVal
  rw [List.foldl_append]
  rfl

/-- Reading the printed numeral back gives the number: the fueled decimal
printer is correct for sufficient fuel. -/
theorem digitsVal_numStrAux (fuel : ℕ) :
    ∀ n, n < fuel → digitsVal (numStrAux fuel n) = n := by
  induction fuel with
  | zero => intro n hn; omega
  | succ fuel ih =>
    intro n hn
    rw [numStrAux]
    by_cases h : n < 10
    · rw [if_pos h]
      show digitsVal ([] ++ [digitChar10 n]) = n
      rw [digitsVal_append_one]
      simp [digitsVal, digitVal_digitChar10 n h]
    · rw [if_neg h]
      rw [digitsVal_append_one]
      have hrec : n / 10 < fuel := by
        have h1 : n / 10 < n := Nat.div_lt_self (by omega) (by omega)
        omega
      rw [ih (n / 10) hrec, digitVal_digitChar10 (n % 10) (Nat.mod_lt n (by omega))]
      omega

/-- `digitsVal` is a left inverse of the `${counter}` printer. -/
theorem digitsVal_numStrL (n : ℕ) : digitsVal (numStrL n) = n :=
  digitsVal_numStrAux (n + 1) n (Nat.lt_succ_self n)

/-- Distinct counters print to distinct digit strings. -/
theorem numStrL_injective : Function.Injective numStrL := by
  intro a b h
  have h2 := congrArg digitsVal h
  rwa [digitsVal_numStrL, digitsVal_numStrL] at h2

/-- Distinct counters give distinct candidate destination paths. -/
theorem conflictCand_injective (destFolder src : String) :
    Function.Injective (fun c => joinP destFolder (mkConflictName src c)) := by
  intro a b h
  have hd : destFolder.data ++ '/' ::
        (stemChars (basenameChars src.data) ++ '_' ::
          (numStrL a ++ extChars (basenameChars src.data))) =
      destFolder.data ++ '/' ::
        (stemChars (basenameChars src.data) ++ '_' ::
          (numStrL b ++ extChars (basenameChars src.data))) := by
    have h0 := congrArg String.data h
    simpa [joinP, mkConflictName] using h0
  have h1 := List.append_cancel_left hd
  injection h1 with _ h2
  have h3 := List.append_cancel_left h2
  injection h3 with _ h4
  exact numStrL_injective (List.append_cancel_right h4)

/-- Pigeonhole: among the first `files.length + 1` candidate names (all
distinct), at least one is not an existing file. -/
theorem exists_unused_cand (files : List String) (cand : ℕ → String)
    (hinj : Function.Injective cand) :
    ∃ c, 1 ≤ c ∧ c ≤ files.length + 1 ∧ cand c ∉ files := by
  by_contra hcon
  push_neg at hcon
  have hsub : (Finset.Icc 1 (files.length + 1)).image cand ⊆ files.toFinset := by
    intro x hx
    obtain ⟨c, hc, rfl⟩ := Finset.mem_image.mp hx
    obtain ⟨hg1, hg2⟩ := Finset.mem_Icc.mp hc
    exact List.mem_toFinset.mpr (hcon c hg1 hg2)
  have hcard := Finset.card_le_card hsub
  rw [Finset.card_image_of_injOn (Function.Injective.injOn hinj),
    Nat.card_Icc] at hcard
  have hle := List.toFinset_card_le files
  omega

/-- The `while (existsSync(destination))` loop returns the first free
candidate at or after `start`, provided one exists within the fuel. -/
theorem firstFreeAux_finds_first (files : List String) (cand : ℕ → String) :
    ∀ (fuel start : ℕ),
      (∃ c, start ≤ c ∧ c < start + fuel ∧ cand c ∉ files) →
      ∃ c, firstFreeAux files cand start fuel = some (cand c) ∧
        start ≤ c ∧ cand c ∉ files ∧
        ∀ j, start ≤ j → j < c → cand j ∈ files := by
  intro fuel
  induction fuel with
  | zero =>
    rintro start ⟨c, h1, h2, -⟩
    omega
  | succ fuel ih =>
    rintro start ⟨c, h1, h2, h3⟩
    rw [firstFreeAux]
    by_cases hs : cand start ∈ files
    · rw [if_pos hs]
      have hcne : c ≠ start := fun he => h3 (he ▸ hs)
      obtain ⟨c', hfa, hge, hfree, hmin⟩ :=
        ih (start + 1) ⟨c, by omega, by omega, h3⟩
      refine ⟨c', hfa, by omega, hfree, ?_⟩
      intro j hj1 hj2
      rcases Nat.eq_or_lt_of_le hj1 with rfl | hlt
      · exact hs
      · exact hmin j hlt hj2
    · rw [if_neg hs]
      refine ⟨start, rfl, le_refl _, hs, ?_⟩
      intro j hj1 hj2
      omega

/-- Behaviour of `moveNote` on every filesystem: the move succeeds, the
destination never overwrites an existing file, the source is renamed onto
the destination, and the destination is either the plain
`destFolder/basename` when it is free, or `stem_c.ext` for the first
counter `c ≥ 1` (scanned sequentially) whose candidate does not exist. -/
theorem moveNote_spec (fs : Fs) (ws src dfold : String) :
    ∃ dest fs', moveNote fs ws src dfold = some (dest, fs') ∧
      dest ∉ fs.files ∧
      fs'.files = fs.files.erase src ++ [dest] ∧
      ((joinP (joinP ws dfold) (basenameS src) ∉ fs.files ∧
        dest = joinP (joinP ws dfold) (basenameS src)) ∨
       (joinP (joinP ws dfold) (basenameS src) ∈ fs.files ∧
        ∃ c, 1 ≤ c ∧ dest = joinP (joinP ws dfold) (mkConflictName src c) ∧
          ∀ j, 1 ≤ j → j < c →
            joinP (joinP ws dfold) (mkConflictName src j) ∈ fs.files)) := by
  by_cases h0 : joinP (joinP ws dfold) (basenameS src) ∈ fs.files
  · obtain ⟨c, hc1, hc2, hcfree⟩ := exists_unused_cand fs.files
      (fun c => joinP (joinP ws dfold) (mkConflictName src c))
      (conflictCand_injective _ _)
    obtain ⟨c', hfa, hge, hfree, hmin⟩ := firstFreeAux_finds_first fs.files
      (fun c => joinP (joinP ws dfold) (mkConflictName src c))
      (fs.files.length + 1) 1 ⟨c, hc1, by omega, hcfree⟩
    have hmv : moveNote fs ws src dfold =
        some (joinP (joinP ws dfold) (mkConflictName src c'),
          { files := fs.files.erase src ++
              [joinP (joinP ws dfold) (mkConflictName src c')],
            dirs := if joinP ws dfold ∈ fs.dirs then fs.dirs
                    else joinP ws dfold :: fs.dirs }) := by
      simp only [moveNote]
      rw [if_pos h0, hfa]
    exact ⟨_, _, hmv, hfree, rfl, Or.inr ⟨h0, c', hge, rfl, hmin⟩⟩
  · have hmv : moveNote fs ws src dfold =
        some (joinP (joinP ws dfold) (basenameS src),
          { files := fs.files.erase src ++
              [joinP (joinP ws dfold) (basenameS src)],
            dirs := if joinP ws dfold ∈ fs.dirs then fs.dirs
                    else joinP ws dfold :: fs.dirs }) := by
      simp only [moveNote]
      rw [if_neg h0]
    exact ⟨_, _, hmv, h0, rfl, Or.inl ⟨h0, rfl⟩⟩

/-- C6: `moveNote` never overwrites an existing file; when the plain
destination name is taken it appends `_1`, `_2`, … (the first unused
counter, scanned sequentially from 1) to the stem while keeping the
extension (see `mkConflictName`), and moving two files both named `note.md`
into the same folder in sequence yields `note.md` then `note_1.md`. -/
theorem moveNote_conflict_naming (fs : Fs) (ws src dfold : String) :
    (∃ dest fs', moveNote fs ws src dfold = some (dest, fs') ∧
      dest ∉ fs.files ∧
      fs'.files = fs.files.erase src ++ [dest] ∧
      ((joinP (joinP ws dfold) (basenameS src) ∉ fs.files ∧
        dest = joinP (joinP ws dfold) (basenameS src)) ∨
       (joinP (joinP ws dfold) (basenameS src) ∈ fs.files ∧
        ∃ c, 1 ≤ c ∧ dest = joinP (joinP ws dfold) (mkConflictName src c) ∧
          ∀ j, 1 ≤ j → j < c →
            joinP (joinP ws dfold) (mkConflictName src j) ∈ fs.files))) ∧
    moveNote ⟨["inbox/a/note.md", "inbox/b/note.md"], ["ws/work"]⟩
        "ws" "inbox/a/note.md" "work" =
      some ("ws/work/note.md",
        ⟨["inbox/b/note.md", "ws/work/note.md"], ["ws/work"]⟩) ∧
    moveNote ⟨["inbox/b/note.md", "ws/work/note.md"], ["ws/work"]⟩
        "ws" "inbox/b/note.md" "work" =
      some ("ws/work/note_1.md",
        ⟨["ws/work/note.md", "ws/work/note_1.md"], ["ws/work"]⟩) :=
  ⟨moveNote_spec fs ws src dfold, by decide, by decide⟩

end Sortr
